import Mathlib

/-
  Verification development for the sigma.js `Camera` class (src/camera.js).

  The camera owns four scalar fields (x, y, angle, ratio), an optional
  in-flight animation-frame handle (`nextFrame`), and emits an "updated"
  event on every `setState`.  The host's `requestAnimationFrame` /
  `cancelAnimationFrame` pair is modelled by a list of pending callbacks
  keyed by fresh integer tokens, and the event emitter by a log of
  emissions.  Scalars are modelled by rationals.
-/

namespace SigmaCamera

/-- The four-scalar camera state (x, y, angle, ratio), as returned by
`getState()` in src/camera.js. -/
structure CameraState where
  x : ℚ
  y : ℚ
  angle : ℚ
  ratio : ℚ
deriving DecidableEq, Repr

/-- A JS object passed to `setState`/`animate`: each of the four keys may
be present (`some v`) or absent (`none`), mirroring the `'x' in state`
checks of src/camera.js. -/
structure StatePatch where
  x : Option ℚ
  y : Option ℚ
  angle : Option ℚ
  ratio : Option ℚ
deriving DecidableEq, Repr

/-- The data captured by the closure `fn` inside `animate`
(src/camera.js): the start time, the merged duration, the snapshot
`initialState = this.getState()`, and the target `state` object. -/
structure Anim where
  start : ℚ
  duration : ℚ
  initialState : CameraState
  target : StatePatch
deriving DecidableEq, Repr

/-- One "updated" event emission: the full post-mutation snapshot
carried as payload, together with the value `isAnimated()` would
return to a subscriber handling the event at that moment. -/
structure Emission where
  snapshot : CameraState
  animatedAtEmit : Bool
deriving DecidableEq, Repr

/-- The whole system: the camera's mutable fields plus the host
environment it interacts with.  `nextFrame` is `this.nextFrame`
(null modelled as `none`); `pending` are the callbacks scheduled via
`requestAnimationFrame` and not yet fired or cancelled, keyed by their
tokens; `nextToken` generates fresh handles (browser frame-request ids
start at 1, never 0); `events` is the log of "updated" emissions;
`invoked` records the ids of `callback` arguments that were ever
invoked. -/
structure Sys where
  state : CameraState
  nextFrame : Option Nat
  pending : List (Nat × Anim)
  nextToken : Nat
  events : List Emission
  invoked : List Nat
deriving DecidableEq, Repr

/-- JS truthiness of the stored handle: `!!this.nextFrame`
(null is falsy, and so is the number 0). -/
def isAnimatedHandle : Option Nat → Bool
  | none => false
  | some tok => tok != 0

/-- `isAnimated()` from src/camera.js: `return !!this.nextFrame`. -/
def Camera.isAnimated (s : Sys) : Bool :=
  isAnimatedHandle s.nextFrame

/-- `getState()` from src/camera.js: a snapshot of the four fields. -/
def Camera.getState (s : Sys) : CameraState :=
  { x := s.state.x, y := s.state.y, angle := s.state.angle, ratio := s.state.ratio }

/-- The field mutations performed by `setState(state)` in src/camera.js:
four sequential `if ('f' in state) this.f = state.f` assignments. -/
def setStateFields (c : CameraState) (p : StatePatch) : CameraState :=
  let c := match p.x with
    | some v => { c with x := v }
    | none => c
  let c := match p.y with
    | some v => { c with y := v }
    | none => c
  let c := match p.angle with
    | some v => { c with angle := v }
    | none => c
  let c := match p.ratio with
    | some v => { c with ratio := v }
    | none => c
  c

/-- `setState(state)` from src/camera.js: mutate the present fields,
then synchronously emit `'updated'` with `this.getState()` before
returning `this`. -/
def Camera.setState (s : Sys) (p : StatePatch) : Sys :=
  let s := { s with state := setStateFields s.state p }
  { s with events := s.events ++ [{ snapshot := Camera.getState s, animatedAtEmit := Camera.isAnimated s }] }

/-- `ANIMATE_DEFAULTS.duration` from src/camera.js. -/
def ANIMATE_DEFAULT_DURATION : ℚ := 150

/-- `cancelAnimationFrame(tok)` on the host's pending queue: the
callback registered under `tok` will not run. -/
def cancelFrame (pend : List (Nat × Anim)) (tok : Nat) : List (Nat × Anim) :=
  pend.filter (fun e => e.1 != tok)

/-- The spec-modelled quadratic ease-in-out curve.
Modelled from the spec: `easings.quadraticInOut` lives in src/easings.js,
which is not part of the provided sources; the spec describes it as the
symmetric quadratic ease-in-out with easing(0)=0, easing(1)=1,
accelerating on the first half and decelerating on the second. -/
def quadraticInOut (t : ℚ) : ℚ :=
  if t < 1 / 2 then 2 * t * t
  else -1 + (4 - 2 * t) * t

/-- The body of the closure `fn` inside `animate` (src/camera.js),
run at wall-clock time `now` on system `s`:
compute `t = (now - start) / duration`; if `t >= 1`, clear
`this.nextFrame`, apply the exact target via `setState` and stop;
otherwise apply the eased interpolation of the present target fields
via `setState` and reschedule `fn`, storing the fresh token. -/
def runFrameFn (s : Sys) (a : Anim) (now : ℚ) : Sys :=
  let t := (now - a.start) / a.duration
  if 1 ≤ t then
    let s := { s with nextFrame := none }
    Camera.setState s a.target
  else
    let coefficient := quadraticInOut t
    let newState : StatePatch :=
      { x := a.target.x.map (fun v => a.initialState.x + (v - a.initialState.x) * coefficient),
        y := a.target.y.map (fun v => a.initialState.y + (v - a.initialState.y) * coefficient),
        angle := a.target.angle.map (fun v => a.initialState.angle + (v - a.initialState.angle) * coefficient),
        ratio := a.target.ratio.map (fun v => a.initialState.ratio + (v - a.initialState.ratio) * coefficient) }
    let s := Camera.setState s newState
    { s with pending := s.pending ++ [(s.nextToken, a)],
             nextToken := s.nextToken + 1,
             nextFrame := some s.nextToken }

/-- `animate(state, options, callback)` from src/camera.js, invoked at
wall-clock time `now`.  `optDuration` models `options.duration` after
the `assign({}, ANIMATE_DEFAULTS, options)` merge; `cb` is the
`callback` argument, accepted but never used by the source.  If
`this.nextFrame` is truthy its callback is cancelled; then the first
frame of `fn` is scheduled and its token stored. -/
def Camera.animate (s : Sys) (now : ℚ) (target : StatePatch) (optDuration : Option ℚ) (cb : Nat) : Sys :=
  let _ := cb
  let duration := optDuration.getD ANIMATE_DEFAULT_DURATION
  let pend := match s.nextFrame with
    | some tok => if tok != 0 then cancelFrame s.pending tok else s.pending
    | none => s.pending
  let a : Anim := { start := now, duration := duration, initialState := Camera.getState s, target := target }
  { s with pending := pend ++ [(s.nextToken, a)],
           nextToken := s.nextToken + 1,
           nextFrame := some s.nextToken }

/-- `pan(x, y, options, callback)` from src/camera.js: delegate to
`animate` with target `{x: this.x - x, y: this.y - y}`. -/
def Camera.pan (s : Sys) (now dx dy : ℚ) (optDuration : Option ℚ) (cb : Nat) : Sys :=
  Camera.animate s now
    { x := some (s.state.x - dx), y := some (s.state.y - dy), angle := none, ratio := none }
    optDuration cb

/-- `zoom(factor, options, callback)` from src/camera.js:
`factor = factor || 1.5` (an omitted argument is `undefined`, and both
`undefined` and the number 0 are falsy), then delegate to `animate`
with target `{ratio: this.ratio / factor}`. -/
def Camera.zoom (s : Sys) (now : ℚ) (factor : Option ℚ) (optDuration : Option ℚ) (cb : Nat) : Sys :=
  let f := match factor with
    | none => (3 : ℚ) / 2
    | some v => if v = 0 then (3 : ℚ) / 2 else v
  Camera.animate s now
    { x := none, y := none, angle := none, ratio := some (s.state.ratio / f) }
    optDuration cb

/-- The host firing the frame callback registered under token `tok` at
wall-clock time `now`: the callback is consumed from the pending queue
and its body `fn` runs; a token that is not pending (already fired or
cancelled) does nothing. -/
def fireFrame (s : Sys) (tok : Nat) (now : ℚ) : Sys :=
  match s.pending.find? (fun e => e.1 == tok) with
  | none => s
  | some e => runFrameFn { s with pending := cancelFrame s.pending tok } e.2 now

/-- A freshly constructed Camera (constructor of src/camera.js):
state (0, 0, 0, 1), no in-flight frame, nothing scheduled, no events. -/
def initCamera : Sys :=
  { state := { x := 0, y := 0, angle := 0, ratio := 1 },
    nextFrame := none,
    pending := [],
    nextToken := 1,
    events := [],
    invoked := [] }

/-- One observable operation on the system: a public Camera method call
or the host firing a scheduled frame. -/
inductive Op where
  | set : StatePatch → Op
  | anim : ℚ → StatePatch → Option ℚ → Nat → Op
  | doPan : ℚ → ℚ → ℚ → Option ℚ → Nat → Op
  | doZoom : ℚ → Option ℚ → Option ℚ → Nat → Op
  | frame : Nat → ℚ → Op
deriving DecidableEq, Repr

/-- Interpretation of one operation. -/
def step (s : Sys) : Op → Sys
  | Op.set p => Camera.setState s p
  | Op.anim now tgt d cb => Camera.animate s now tgt d cb
  | Op.doPan now dx dy d cb => Camera.pan s now dx dy d cb
  | Op.doZoom now f d cb => Camera.zoom s now f d cb
  | Op.frame tok now => fireFrame s tok now

/-- Interpretation of a whole trace of operations. -/
def run (s : Sys) : List Op → Sys :=
  List.foldl step s

/-- The scheduling invariant of a Camera: tokens are nonzero and fresh,
and the pending queue holds exactly the callback named by
`this.nextFrame` (empty when idle). -/
def Inv (s : Sys) : Prop :=
  1 ≤ s.nextToken ∧
  (s.nextFrame = none → s.pending = []) ∧
  (∀ tok, s.nextFrame = some tok →
    1 ≤ tok ∧ tok < s.nextToken ∧ ∃ a, s.pending = [(tok, a)])

/-- The initial camera satisfies the scheduling invariant. -/
theorem initCamera_inv : Inv initCamera := by
  refine ⟨le_refl 1, fun _ => rfl, fun tok htok => ?_⟩
  cases htok

/-- `setState` touches neither the handle nor the pending queue. -/
theorem setState_sched_unchanged (s : Sys) (p : StatePatch) :
    (Camera.setState s p).nextFrame = s.nextFrame ∧
    (Camera.setState s p).pending = s.pending ∧
    (Camera.setState s p).nextToken = s.nextToken ∧
    (Camera.setState s p).invoked = s.invoked ∧
    (Camera.setState s p).state = setStateFields s.state p := by
  exact ⟨rfl, rfl, rfl, rfl, rfl⟩

/-- Under the invariant, `animate` leaves exactly the new animation's
callback pending, registered under the old `nextToken`. -/
theorem animate_pending_of_inv (s : Sys) (h : Inv s) (now : ℚ) (tgt : StatePatch)
    (d : Option ℚ) (cb : Nat) :
    (Camera.animate s now tgt d cb).pending
      = [(s.nextToken,
          { start := now, duration := d.getD ANIMATE_DEFAULT_DURATION,
            initialState := Camera.getState s, target := tgt })] := by
  obtain ⟨-, h2, h3⟩ := h
  cases hnf : s.nextFrame with
  | none =>
      simp [Camera.animate, hnf, h2 hnf]
  | some tok =>
      obtain ⟨htok, -, a, hp⟩ := h3 tok hnf
      have htz : tok ≠ 0 := Nat.one_le_iff_ne_zero.mp htok
      simp [Camera.animate, hnf, hp, cancelFrame, htz]

/-- `animate` returns with the fresh token as the in-flight handle and
bumps the token counter. -/
theorem animate_handle (s : Sys) (now : ℚ) (tgt : StatePatch) (d : Option ℚ) (cb : Nat) :
    (Camera.animate s now tgt d cb).nextFrame = some s.nextToken ∧
    (Camera.animate s now tgt d cb).nextToken = s.nextToken + 1 ∧
    (Camera.animate s now tgt d cb).state = s.state ∧
    (Camera.animate s now tgt d cb).events = s.events ∧
    (Camera.animate s now tgt d cb).invoked = s.invoked := by
  exact ⟨rfl, rfl, rfl, rfl, rfl⟩

/-- `animate` preserves the scheduling invariant. -/
theorem animate_inv (s : Sys) (h : Inv s) (now : ℚ) (tgt : StatePatch)
    (d : Option ℚ) (cb : Nat) : Inv (Camera.animate s now tgt d cb) := by
  refine ⟨Nat.le_succ_of_le h.1, fun hn => ?_, fun tok htok => ?_⟩
  · exact absurd hn (by simp [Camera.animate])
  · have htk : tok = s.nextToken := by
      have : some s.nextToken = some tok := by
        rw [show (Camera.animate s now tgt d cb).nextFrame = some s.nextToken from rfl] at htok
        exact htok
      exact (Option.some.injEq _ _ ▸ this).symm
    subst htk
    refine ⟨h.1, Nat.lt_succ_self _, ?_⟩
    exact ⟨_, animate_pending_of_inv s h now tgt d cb⟩

/-- Firing a token under the invariant: the only token that can be
found is the held one, and the whole pending queue is consumed. -/
theorem fireFrame_of_inv (s : Sys) (h : Inv s) (tok : Nat) (now : ℚ) :
    (s.pending.find? (fun e => e.1 == tok) = none ∧ fireFrame s tok now = s) ∨
    (∃ a, s.nextFrame = some tok ∧ s.pending = [(tok, a)] ∧
      fireFrame s tok now = runFrameFn { s with pending := [] } a now) := by
  obtain ⟨-, h2, h3⟩ := h
  cases hnf : s.nextFrame with
  | none =>
      left
      constructor
      · rw [h2 hnf]; rfl
      · rw [fireFrame, h2 hnf]; rfl
  | some tok0 =>
      obtain ⟨-, -, a, hp⟩ := h3 tok0 hnf
      by_cases htk : tok0 = tok
      · cases htk
        right
        refine ⟨a, rfl, hp, ?_⟩
        rw [fireFrame, hp]
        simp [cancelFrame, hnf]
      · left
        have hbeq : (tok0 == tok) = false := beq_eq_false_iff_ne.mpr htk
        have hfind : ([(tok0, a)].find? (fun e => e.1 == tok)) = none := by
          simp [List.find?, hbeq]
        constructor
        · rw [hp]; exact hfind
        · rw [fireFrame, hp, hfind]

/-- The frame body preserves the invariant when run on a consumed
(empty) pending queue. -/
theorem runFrameFn_inv (s : Sys) (h1 : 1 ≤ s.nextToken) (hp : s.pending = [])
    (a : Anim) (now : ℚ) : Inv (runFrameFn s a now) := by
  rw [runFrameFn]
  by_cases ht : 1 ≤ (now - a.start) / a.duration
  · rw [if_pos ht]
    refine ⟨h1, fun _ => hp, fun tok htok => ?_⟩
    exact absurd htok (by simp [Camera.setState])
  · rw [if_neg ht]
    refine ⟨Nat.le_succ_of_le h1, fun hn => ?_, fun tok htok => ?_⟩
    · exact absurd hn (by simp)
    · have htok' : some s.nextToken = some tok := htok
      obtain rfl : s.nextToken = tok := Option.some_inj.mp htok'
      exact ⟨h1, Nat.lt_succ_self _, a, by simp [Camera.setState, hp]⟩

/-- Every operation preserves the scheduling invariant. -/
theorem step_inv (s : Sys) (h : Inv s) (o : Op) : Inv (step s o) := by
  cases o with
  | set p =>
      obtain ⟨h1, h2, h3⟩ := h
      exact ⟨h1, h2, h3⟩
  | anim now tgt d cb => exact animate_inv s h now tgt d cb
  | doPan now dx dy d cb => exact animate_inv s h now _ d cb
  | doZoom now f d cb => exact animate_inv s h now _ d cb
  | frame tok now =>
      show Inv (fireFrame s tok now)
      rcases fireFrame_of_inv s h tok now with ⟨-, heq⟩ | ⟨a, -, -, heq⟩
      · rw [heq]; exact h
      · rw [heq]
        exact runFrameFn_inv { s with pending := [] } h.1 rfl a now

/-- Every reachable system state satisfies the scheduling invariant. -/
theorem run_inv (s : Sys) (h : Inv s) (ops : List Op) : Inv (run s ops) := by
  induction ops generalizing s with
  | nil => exact h
  | cons o rest ih => exact ih (step s o) (step_inv s h o)

/-- The frame body never invokes a callback. -/
theorem runFrameFn_invoked (s : Sys) (a : Anim) (now : ℚ) :
    (runFrameFn s a now).invoked = s.invoked := by
  rw [runFrameFn]
  by_cases ht : 1 ≤ (now - a.start) / a.duration
  · rw [if_pos ht]; rfl
  · rw [if_neg ht]; rfl

/-- The x field after `setState`'s mutations: the supplied value when
the key is present, the prior value otherwise. -/
theorem setStateFields_x (c : CameraState) (p : StatePatch) :
    (setStateFields c p).x = p.x.getD c.x := by
  rcases p with ⟨px, py, pa, pr⟩
  cases px <;> cases py <;> cases pa <;> cases pr <;> rfl

/-- The y field after `setState`'s mutations. -/
theorem setStateFields_y (c : CameraState) (p : StatePatch) :
    (setStateFields c p).y = p.y.getD c.y := by
  rcases p with ⟨px, py, pa, pr⟩
  cases px <;> cases py <;> cases pa <;> cases pr <;> rfl

/-- The angle field after `setState`'s mutations. -/
theorem setStateFields_angle (c : CameraState) (p : StatePatch) :
    (setStateFields c p).angle = p.angle.getD c.angle := by
  rcases p with ⟨px, py, pa, pr⟩
  cases px <;> cases py <;> cases pa <;> cases pr <;> rfl

/-- The ratio field after `setState`'s mutations. -/
theorem setStateFields_ratio (c : CameraState) (p : StatePatch) :
    (setStateFields c p).ratio = p.ratio.getD c.ratio := by
  rcases p with ⟨px, py, pa, pr⟩
  cases px <;> cases py <;> cases pa <;> cases pr <;> rfl

/-- No operation ever invokes a supplied callback. -/
theorem step_invoked (s : Sys) (o : Op) : (step s o).invoked = s.invoked := by
  cases o with
  | set p => rfl
  | anim now tgt d cb => rfl
  | doPan now dx dy d cb => rfl
  | doZoom now f d cb => rfl
  | frame tok now =>
      show (fireFrame s tok now).invoked = s.invoked
      rw [fireFrame]
      cases hf : s.pending.find? (fun e => e.1 == tok) with
      | none => rfl
      | some e => exact runFrameFn_invoked _ e.2 now

/-- No trace of operations ever changes the set of invoked callbacks. -/
theorem run_invoked (s : Sys) (ops : List Op) : (run s ops).invoked = s.invoked := by
  induction ops generalizing s with
  | nil => rfl
  | cons o rest ih => exact (ih (step s o)).trans (step_invoked s o)

/-- C3: for every camera state and partial update `p`, `setState(p)`
changes exactly the fields of x, y, angle, ratio present as keys in `p`
to the supplied values, and every absent field retains its prior value;
in particular from the initial state (0, 0, 0, 1), `setState({x: 5})`
yields (5, 0, 0, 1). -/
theorem setState_updates_exactly_present_fields :
    (∀ (s : Sys) (p : StatePatch),
      (Camera.setState s p).state.x = p.x.getD s.state.x ∧
      (Camera.setState s p).state.y = p.y.getD s.state.y ∧
      (Camera.setState s p).state.angle = p.angle.getD s.state.angle ∧
      (Camera.setState s p).state.ratio = p.ratio.getD s.state.ratio) ∧
    (Camera.setState initCamera
        { x := some 5, y := none, angle := none, ratio := none }).state
      = { x := 5, y := 0, angle := 0, ratio := 1 } := by
  constructor
  · intro s p
    exact ⟨setStateFields_x _ _, setStateFields_y _ _,
           setStateFields_angle _ _, setStateFields_ratio _ _⟩
  · rfl

/-- C6: every `setState(p)` call appends exactly one "updated" emission
whose payload is the full four-field snapshot after the fields of `p`
have been applied, synchronously in the same call; the call never fails
and mutates nothing else of the camera. -/
theorem setState_emits_one_updated :
    ∀ (s : Sys) (p : StatePatch),
      (Camera.setState s p).events
        = s.events ++ [{ snapshot := setStateFields s.state p,
                         animatedAtEmit := Camera.isAnimated s }] ∧
      (Camera.setState s p).state = setStateFields s.state p ∧
      (Camera.setState s p).nextFrame = s.nextFrame ∧
      (Camera.setState s p).pending = s.pending ∧
      (Camera.setState s p).nextToken = s.nextToken ∧
      (Camera.setState s p).invoked = s.invoked :=
  fun _ _ => ⟨rfl, rfl, rfl, rfl, rfl, rfl⟩

/-- C9: the `callback` argument of `animate` (and of `pan` and `zoom`,
which delegate to it) is never invoked: along every trace of operations
from a fresh camera the set of invoked callbacks stays empty, and no
single operation ever invokes one. -/
theorem animate_callback_never_invoked :
    (∀ ops : List Op, (run initCamera ops).invoked = []) ∧
    (∀ (s : Sys) (o : Op), (step s o).invoked = s.invoked) :=
  ⟨fun ops => (run_invoked initCamera ops).trans rfl, step_invoked⟩

/-- C2: when a scheduled frame of `animate` fires with elapsed fraction
t = (now - start) / duration at least 1, the camera state is set via
`setState` to exactly the requested target fields (not an interpolated
approximation), the in-flight handle is cleared, and no further frame
is scheduled. -/
theorem animate_completion_sets_exact_target (s : Sys) (tok : Nat) (a : Anim) (now : ℚ)
    (hd : 0 ≤ a.duration)
    (hfind : s.pending.find? (fun e => e.1 == tok) = some (tok, a))
    (ht : 1 ≤ (now - a.start) / a.duration) :
    (fireFrame s tok now).state = setStateFields s.state a.target ∧
    (fireFrame s tok now).nextFrame = none ∧
    (fireFrame s tok now).pending = cancelFrame s.pending tok ∧
    (fireFrame s tok now).nextToken = s.nextToken ∧
    (fireFrame s tok now).events
      = s.events ++ [{ snapshot := setStateFields s.state a.target,
                       animatedAtEmit := false }] := by
  simp only [fireFrame, hfind]
  rw [runFrameFn, if_pos ht]
  exact ⟨rfl, rfl, rfl, rfl, rfl⟩

/-- C2 witness: completing a concrete animation from the fresh camera
lands exactly on the requested target and clears the handle. -/
theorem animate_completion_sets_exact_target_witness :
    (fireFrame (Camera.animate initCamera 0
        { x := some 5, y := none, angle := none, ratio := some 2 } (some 1) 0) 1 2).state
      = setStateFields initCamera.state
          { x := some 5, y := none, angle := none, ratio := some 2 } ∧
    (fireFrame (Camera.animate initCamera 0
        { x := some 5, y := none, angle := none, ratio := some 2 } (some 1) 0) 1 2).nextFrame
      = none := by
  have h := animate_completion_sets_exact_target
    (Camera.animate initCamera 0
      { x := some 5, y := none, angle := none, ratio := some 2 } (some 1) 0)
    1
    { start := 0, duration := 1,
      initialState := { x := 0, y := 0, angle := 0, ratio := 1 },
      target := { x := some 5, y := none, angle := none, ratio := some 2 } }
    2 (by norm_num) (by decide) (by norm_num)
  exact ⟨h.1, h.2.1⟩

/-- C10: on an animation's final frame the handle is cleared before the
final `setState` runs, so the completion's "updated" emission already
observes `isAnimated()` as false, and the camera is idle afterwards. -/
theorem completion_emission_observes_idle (s : Sys) (tok : Nat) (a : Anim) (now : ℚ)
    (hfind : s.pending.find? (fun e => e.1 == tok) = some (tok, a))
    (ht : 1 ≤ (now - a.start) / a.duration) :
    (fireFrame s tok now).events
      = s.events ++ [{ snapshot := setStateFields s.state a.target,
                       animatedAtEmit := false }] ∧
    Camera.isAnimated (fireFrame s tok now) = false := by
  simp only [fireFrame, hfind]
  rw [runFrameFn, if_pos ht]
  exact ⟨rfl, rfl⟩

/-- C10 witness: the completion emission of a concrete animation
reports the camera as no longer animated. -/
theorem completion_emission_observes_idle_witness :
    Camera.isAnimated (fireFrame (Camera.animate initCamera 0
        { x := some 5, y := none, angle := none, ratio := none } (some 1) 0) 1 2)
      = false :=
  (completion_emission_observes_idle
    (Camera.animate initCamera 0
      { x := some 5, y := none, angle := none, ratio := none } (some 1) 0)
    1
    { start := 0, duration := 1,
      initialState := { x := 0, y := 0, angle := 0, ratio := 1 },
      target := { x := some 5, y := none, angle := none, ratio := none } }
    2 (by decide) (by norm_num)).2

/-- C4: on every non-final frame (elapsed fraction t < 1) of an
animation, the applied update sets each field present as a key in the
target to initialState[f] + (targetState[f] - initialState[f]) * easing(t),
where initialState is the snapshot taken when `animate` was invoked and
easing is the quadratic ease-in-out curve; fields absent from the
target are not touched by the frame. -/
theorem interpolation_frame_formula (s : Sys) (tok : Nat) (a : Anim) (now : ℚ)
    (hfind : s.pending.find? (fun e => e.1 == tok) = some (tok, a))
    (ht : (now - a.start) / a.duration < 1) :
    ((fireFrame s tok now).state.x
        = match a.target.x with
          | some v => a.initialState.x
              + (v - a.initialState.x) * quadraticInOut ((now - a.start) / a.duration)
          | none => s.state.x) ∧
    ((fireFrame s tok now).state.y
        = match a.target.y with
          | some v => a.initialState.y
              + (v - a.initialState.y) * quadraticInOut ((now - a.start) / a.duration)
          | none => s.state.y) ∧
    ((fireFrame s tok now).state.angle
        = match a.target.angle with
          | some v => a.initialState.angle
              + (v - a.initialState.angle) * quadraticInOut ((now - a.start) / a.duration)
          | none => s.state.angle) ∧
    ((fireFrame s tok now).state.ratio
        = match a.target.ratio with
          | some v => a.initialState.ratio
              + (v - a.initialState.ratio) * quadraticInOut ((now - a.start) / a.duration)
          | none => s.state.ratio) := by
  simp only [fireFrame, hfind]
  rw [runFrameFn, if_neg (not_le.mpr ht)]
  refine ⟨?_, ?_, ?_, ?_⟩
  · show (setStateFields s.state _).x = _
    rw [setStateFields_x]
    cases a.target.x <;> rfl
  · show (setStateFields s.state _).y = _
    rw [setStateFields_y]
    cases a.target.y <;> rfl
  · show (setStateFields s.state _).angle = _
    rw [setStateFields_angle]
    cases a.target.angle <;> rfl
  · show (setStateFields s.state _).ratio = _
    rw [setStateFields_ratio]
    cases a.target.ratio <;> rfl

/-- C4 witness: one quarter into an animation of x toward 8 with
duration 4, the camera sits at x = 8 * easing(1/4) = 1. -/
theorem interpolation_frame_formula_witness :
    (fireFrame (Camera.animate initCamera 0
        { x := some 8, y := none, angle := none, ratio := none } (some 4) 0) 1 1).state.x
      = 1 := by
  have h := (interpolation_frame_formula
    (Camera.animate initCamera 0
      { x := some 8, y := none, angle := none, ratio := none } (some 4) 0)
    1
    { start := 0, duration := 4,
      initialState := { x := 0, y := 0, angle := 0, ratio := 1 },
      target := { x := some 8, y := none, angle := none, ratio := none } }
    1 (by decide) (by norm_num)).1
  rw [h]
  rw [show ((1 : ℚ) - 0) / 4 = 1/4 by norm_num]
  rw [quadraticInOut]
  norm_num

/-- C5: `isAnimated()` returns true iff an animation handle is held:
it is false on a freshly constructed camera, true immediately after
`animate` returns, still true after every non-final interpolation
frame, and false again after the final frame (t >= 1) has run. -/
theorem isAnimated_tracks_handle :
    (∀ s : Sys, Inv s → (Camera.isAnimated s = true ↔ s.nextFrame ≠ none)) ∧
    Camera.isAnimated initCamera = false ∧
    (∀ (s : Sys) (now : ℚ) (tgt : StatePatch) (d : Option ℚ) (cb : Nat),
      1 ≤ s.nextToken → Camera.isAnimated (Camera.animate s now tgt d cb) = true) ∧
    (∀ (s : Sys) (tok : Nat) (a : Anim) (now : ℚ),
      1 ≤ s.nextToken →
      s.pending.find? (fun e => e.1 == tok) = some (tok, a) →
      (now - a.start) / a.duration < 1 →
      Camera.isAnimated (fireFrame s tok now) = true) ∧
    (∀ (s : Sys) (tok : Nat) (a : Anim) (now : ℚ),
      s.pending.find? (fun e => e.1 == tok) = some (tok, a) →
      1 ≤ (now - a.start) / a.duration →
      Camera.isAnimated (fireFrame s tok now) = false) := by
  refine ⟨?_, rfl, ?_, ?_, ?_⟩
  · intro s hs
    constructor
    · intro hA hn
      rw [Camera.isAnimated, hn] at hA
      exact Bool.false_ne_true hA
    · intro hn
      cases hnf : s.nextFrame with
      | none => exact absurd hnf hn
      | some tok =>
          obtain ⟨h1, -, -⟩ := hs.2.2 tok hnf
          simp [Camera.isAnimated, isAnimatedHandle, hnf, Nat.one_le_iff_ne_zero.mp h1]
  · intro s now tgt d cb h1
    simp [Camera.isAnimated, Camera.animate, isAnimatedHandle, Nat.one_le_iff_ne_zero.mp h1]
  · intro s tok a now h1 hfind ht
    simp only [fireFrame, hfind]
    rw [runFrameFn, if_neg (not_le.mpr ht)]
    simp [Camera.isAnimated, isAnimatedHandle, Camera.setState, Nat.one_le_iff_ne_zero.mp h1]
  · intro s tok a now hfind ht
    simp only [fireFrame, hfind]
    rw [runFrameFn, if_pos ht]
    rfl

/-- Firing a token that is not pending does nothing. -/
theorem fireFrame_absent (s : Sys) (tok : Nat) (now : ℚ)
    (hfind : s.pending.find? (fun e => e.1 == tok) = none) :
    fireFrame s tok now = s := by
  rw [fireFrame, hfind]

/-- Firing the single pending callback consumes the queue and runs the
frame body. -/
theorem fireFrame_single (s : Sys) (tok : Nat) (a : Anim) (now : ℚ)
    (hp : s.pending = [(tok, a)]) :
    fireFrame s tok now = runFrameFn { s with pending := [] } a now := by
  rw [fireFrame, hp]
  have hfind : ([(tok, a)].find? (fun e => e.1 == tok)) = some (tok, a) := by
    simp [List.find?]
  have hc : cancelFrame [(tok, a)] tok = [] := by simp [cancelFrame]
  rw [hfind, hc]

/-- The frame body at t >= 1: clear the handle, then `setState` the
exact target. -/
theorem runFrameFn_final (s : Sys) (a : Anim) (now : ℚ)
    (ht : 1 ≤ (now - a.start) / a.duration) :
    runFrameFn s a now = Camera.setState { s with nextFrame := none } a.target := by
  rw [runFrameFn, if_pos ht]

/-- C1: at most one animation is in flight per camera: the single
pending-callback invariant holds in every reachable state; a second
`animate` cancels the pending frame of the first before scheduling its
own first frame, the superseded callback can never fire again, and the
completion of the new animation applies exactly the second call's
target. -/
theorem single_animation_in_flight (s : Sys) (h : Inv s)
    (now₁ now₂ now₃ : ℚ) (tgt₁ tgt₂ : StatePatch) (d₁ d₂ : Option ℚ) (cb₁ cb₂ : Nat)
    (hc : 1 ≤ (now₃ - now₂) / (d₂.getD ANIMATE_DEFAULT_DURATION)) :
    (∀ ops : List Op, Inv (run initCamera ops)) ∧
    (Camera.animate s now₁ tgt₁ d₁ cb₁).nextFrame = some s.nextToken ∧
    (Camera.animate (Camera.animate s now₁ tgt₁ d₁ cb₁) now₂ tgt₂ d₂ cb₂).pending
      = [(s.nextToken + 1,
          { start := now₂, duration := d₂.getD ANIMATE_DEFAULT_DURATION,
            initialState := Camera.getState s, target := tgt₂ })] ∧
    (∀ now, fireFrame
        (Camera.animate (Camera.animate s now₁ tgt₁ d₁ cb₁) now₂ tgt₂ d₂ cb₂)
        s.nextToken now
      = Camera.animate (Camera.animate s now₁ tgt₁ d₁ cb₁) now₂ tgt₂ d₂ cb₂) ∧
    (fireFrame (Camera.animate (Camera.animate s now₁ tgt₁ d₁ cb₁) now₂ tgt₂ d₂ cb₂)
        (s.nextToken + 1) now₃).state
      = setStateFields s.state tgt₂ := by
  have h1 : Inv (Camera.animate s now₁ tgt₁ d₁ cb₁) := animate_inv s h now₁ tgt₁ d₁ cb₁
  have hpend :
      (Camera.animate (Camera.animate s now₁ tgt₁ d₁ cb₁) now₂ tgt₂ d₂ cb₂).pending
        = [(s.nextToken + 1,
            { start := now₂, duration := d₂.getD ANIMATE_DEFAULT_DURATION,
              initialState := Camera.getState s, target := tgt₂ })] :=
    animate_pending_of_inv _ h1 now₂ tgt₂ d₂ cb₂
  refine ⟨run_inv initCamera initCamera_inv, rfl, hpend, ?_, ?_⟩
  · intro now
    apply fireFrame_absent
    rw [hpend]
    have hne : (s.nextToken + 1 == s.nextToken) = false :=
      beq_eq_false_iff_ne.mpr (Nat.succ_ne_self s.nextToken)
    simp [List.find?, hne]
  · rw [fireFrame_single _ _ _ now₃ hpend]
    rw [runFrameFn_final]
    · rfl
    · exact hc

/-- C1 witness: with two back-to-back animations from the fresh camera,
firing the first animation's (cancelled) token is a no-op, and
completing the pending frame applies exactly the second target. -/
theorem single_animation_in_flight_witness :
    fireFrame (Camera.animate (Camera.animate initCamera 0
        { x := some 1, y := none, angle := none, ratio := none } (some 1) 0) 0
        { x := none, y := some 3, angle := none, ratio := none } (some 1) 0) 1 5
      = Camera.animate (Camera.animate initCamera 0
        { x := some 1, y := none, angle := none, ratio := none } (some 1) 0) 0
        { x := none, y := some 3, angle := none, ratio := none } (some 1) 0 ∧
    (fireFrame (Camera.animate (Camera.animate initCamera 0
        { x := some 1, y := none, angle := none, ratio := none } (some 1) 0) 0
        { x := none, y := some 3, angle := none, ratio := none } (some 1) 0) 2 1).state
      = setStateFields initCamera.state
          { x := none, y := some 3, angle := none, ratio := none } := by
  have h := single_animation_in_flight initCamera initCamera_inv 0 0 1
    { x := some 1, y := none, angle := none, ratio := none }
    { x := none, y := some 3, angle := none, ratio := none }
    (some 1) (some 1) 0 0 (by norm_num)
  exact ⟨h.2.2.2.1 5, h.2.2.2.2⟩

/-- C7: for every camera, `zoom` substitutes 1.5 for an omitted or
falsy (0) factor and delegates to `animate` with target
ratio = current ratio / factor; from ratio 1, a `zoom(2)` reaches
ratio 1/2 at its completion frame. -/
theorem zoom_defaults_and_delegates :
    (∀ (s : Sys) (now : ℚ) (d : Option ℚ) (cb : Nat),
      Camera.zoom s now none d cb
        = Camera.animate s now
            { x := none, y := none, angle := none,
              ratio := some (s.state.ratio / (3/2)) } d cb) ∧
    (∀ (s : Sys) (now : ℚ) (d : Option ℚ) (cb : Nat),
      Camera.zoom s now (some 0) d cb = Camera.zoom s now none d cb) ∧
    (∀ (s : Sys) (now : ℚ) (d : Option ℚ) (cb : Nat),
      Camera.zoom s now (some (3/2)) d cb = Camera.zoom s now none d cb) ∧
    (∀ (s : Sys) (now : ℚ) (d : Option ℚ) (cb : Nat) (f : ℚ), f ≠ 0 →
      Camera.zoom s now (some f) d cb
        = Camera.animate s now
            { x := none, y := none, angle := none,
              ratio := some (s.state.ratio / f) } d cb) ∧
    (∀ (s : Sys) (now now' : ℚ) (d : Option ℚ) (cb : Nat),
      Inv s → s.state.ratio = 1 →
      1 ≤ (now' - now) / (d.getD ANIMATE_DEFAULT_DURATION) →
      (fireFrame (Camera.zoom s now (some 2) d cb) s.nextToken now').state.ratio = 1/2) := by
  refine ⟨fun s now d cb => rfl, ?_, ?_, ?_, ?_⟩
  · intro s now d cb
    simp [Camera.zoom]
  · intro s now d cb
    norm_num [Camera.zoom]
  · intro s now d cb f hf
    simp [Camera.zoom, hf]
  · intro s now now' d cb h hr hc
    have hz2 : Camera.zoom s now (some 2) d cb
        = Camera.animate s now
            { x := none, y := none, angle := none,
              ratio := some (s.state.ratio / 2) } d cb := by
      simp [Camera.zoom]
    rw [hz2]
    have hpend := animate_pending_of_inv s h now
      { x := none, y := none, angle := none, ratio := some (s.state.ratio / 2) } d cb
    rw [fireFrame_single _ _ _ now' hpend]
    rw [runFrameFn_final]
    swap
    · exact hc
    show s.state.ratio / 2 = 1/2
    rw [hr]

/-- C7 witness: from the fresh camera (ratio 1), completing `zoom(2)`
yields ratio 1/2, and `zoom(0)` (falsy factor) equals `zoom()`. -/
theorem zoom_defaults_and_delegates_witness :
    Camera.zoom initCamera 0 (some 0) (some 1) 0
      = Camera.zoom initCamera 0 none (some 1) 0 ∧
    (fireFrame (Camera.zoom initCamera 0 (some 2) (some 1) 0) 1 1).state.ratio = 1/2 := by
  have h := zoom_defaults_and_delegates
  exact ⟨h.2.1 initCamera 0 (some 1) 0,
         h.2.2.2.2 initCamera 0 1 (some 1) 0 initCamera_inv rfl (by norm_num)⟩

/-- C8: for every camera, `pan(dx, dy)` delegates to `animate` with
target (x - dx, y - dy) taken from the camera's position at the moment
`pan` is called; from (10, 10), `pan(3, -2)` reaches (7, 12) at its
completion frame. -/
theorem pan_delegates_to_animate :
    (∀ (s : Sys) (now dx dy : ℚ) (d : Option ℚ) (cb : Nat),
      Camera.pan s now dx dy d cb
        = Camera.animate s now
            { x := some (s.state.x - dx), y := some (s.state.y - dy),
              angle := none, ratio := none } d cb) ∧
    (∀ (s : Sys) (now now' : ℚ) (d : Option ℚ) (cb : Nat),
      Inv s → s.state.x = 10 → s.state.y = 10 →
      1 ≤ (now' - now) / (d.getD ANIMATE_DEFAULT_DURATION) →
      (fireFrame (Camera.pan s now 3 (-2) d cb) s.nextToken now').state.x = 7 ∧
      (fireFrame (Camera.pan s now 3 (-2) d cb) s.nextToken now').state.y = 12) := by
  refine ⟨fun s now dx dy d cb => rfl, ?_⟩
  intro s now now' d cb h hx hy hc
  have hpend := animate_pending_of_inv s h now
    { x := some (s.state.x - 3), y := some (s.state.y - (-2)),
      angle := none, ratio := none } d cb
  have hfire : fireFrame (Camera.pan s now 3 (-2) d cb) s.nextToken now'
      = Camera.setState
          { (Camera.pan s now 3 (-2) d cb) with pending := [], nextFrame := none }
          { x := some (s.state.x - 3), y := some (s.state.y - (-2)),
            angle := none, ratio := none } := by
    rw [show Camera.pan s now 3 (-2) d cb
          = Camera.animate s now
              { x := some (s.state.x - 3), y := some (s.state.y - (-2)),
                angle := none, ratio := none } d cb from rfl]
    rw [fireFrame_single _ _ _ now' hpend]
    rw [runFrameFn_final]
    exact hc
  refine ⟨?_, ?_⟩
  · rw [hfire]
    show s.state.x - 3 = 7
    rw [hx]
    norm_num
  · rw [hfire]
    show s.state.y - (-2) = 12
    rw [hy]
    norm_num

/-- C8 witness: from a camera moved to (10, 10), completing
`pan(3, -2)` lands at (7, 12). -/
theorem pan_delegates_to_animate_witness :
    (fireFrame (Camera.pan (Camera.setState initCamera
        { x := some 10, y := some 10, angle := none, ratio := none })
        0 3 (-2) (some 1) 0) 1 1).state.x = 7 ∧
    (fireFrame (Camera.pan (Camera.setState initCamera
        { x := some 10, y := some 10, angle := none, ratio := none })
        0 3 (-2) (some 1) 0) 1 1).state.y = 12 := by
  have h := (pan_delegates_to_animate).2
    (Camera.setState initCamera
      { x := some 10, y := some 10, angle := none, ratio := none })
    0 1 (some 1) 0
    ⟨le_refl 1, fun _ => rfl, fun tok htok => Option.noConfusion htok⟩
    rfl rfl (by norm_num)
  exact h

end SigmaCamera
